import Mathlib

/-!
# DSPFIR: frequency-response reports of order-1 and order-2 FIR filters

A shallow embedding of `Source.cpp`.

Reading of the C++ types:

* `float` is read as a real number (`ℝ`), every float operation as the exact
  real operation, and a float literal as the single-precision number that it
  denotes (`0.5f`, `1.0f`, `2.0f` and `4.0f` denote themselves,
  `3.14159265359f` denotes `13176795 / 2^22`);
* `std::complex<float>` is read as `ℂ`, `std::polar`, `std::abs` and `atan2`
  as their mathematical definitions;
* `size_t` loop indices are natural numbers, `int delay` is an integer;
* the CSV file written by a report function is read as the list of its rows,
  each row carrying the three numbers that are printed and the numbers of
  the extra cell printed on rows 1 and 3.
-/

namespace DSPFIR

noncomputable section

/-! ## Constants and the complex primitives -/

/-- Number of rows of the frequency / phase response (`c_numFrequencies`). -/
def c_numFrequencies : ℕ := 100

/-- The constant `c_pi = 3.14159265359f`: the single-precision number that the literal denotes,
`0x1.921fb6p+1 = 13176795 / 2^22 = 3.1415927410125732421875`, the one nearest to `π`. -/
def c_pi : ℝ := 13176795 / 4194304

/-- The function `std::polar(rho, theta)`: the complex number `rho * (cos theta + j sin theta)`. -/
def polar (rho theta : ℝ) : ℂ := ⟨rho * Real.cos theta, rho * Real.sin theta⟩

/-- The function `atan2(y, x)` on real arguments: the angle in `(-π, π]` of the point `(x, y)`,
and `0` at the origin. -/
def atan2 (y x : ℝ) : ℝ := Complex.arg ⟨x, y⟩

/-- The function `Z(delay, angle)`: `std::polar(1.0f, float(delay)*angle)`. -/
def Z (delay : ℤ) (angle : ℝ) : ℂ := polar 1 ((delay : ℝ) * angle)

/-! ## The rows of a report -/

/-- The extra cell of a row: empty, the difference equation (with its taps), or the
zero locations. -/
inductive Cell where
  | empty : Cell
  | equation1 (a0 a1 : ℝ) : Cell
  | zero (z : ℝ) : Cell
  | equation2 (a0 a1 a2 : ℝ) : Cell
  | zeroes (re1 im1 re2 im2 : ℝ) : Cell

/-- One printed row: frequency percent, amplitude, phase, and the extra cell. -/
structure Row where
  percent : ℝ
  amplitude : ℝ
  phase : ℝ
  extra : Cell

/-- A written report: the coefficients printed in the header line and the rows. -/
structure Report where
  header : List ℝ
  rows : List Row

/-- The value `percent = float(index) / float(c_numFrequencies - 1)` of the loop body. -/
def percentAt (index : ℕ) : ℝ := (index : ℝ) / ((c_numFrequencies - 1 : ℕ) : ℝ)

/-- The value `angle = percent * c_pi` of the loop body. -/
def angleAt (index : ℕ) : ℝ := percentAt index * c_pi

/-! ## Order 1 -/

/-- The response `a0 * (1.0f + alpha1 * Z(-1, angle))` of `ReportOrder1Filter`. -/
def response1 (a0 alpha1 angle : ℝ) : ℂ :=
  (a0 : ℂ) * (1 + (alpha1 : ℂ) * Z (-1) angle)

/-- The row printed by `ReportOrder1Filter` at loop index `index`. -/
def row1 (a0 alpha1 : ℝ) (index : ℕ) : Row :=
  let a1 : ℝ := alpha1 * a0
  let response : ℂ := response1 a0 alpha1 (angleAt index)
  { percent := percentAt index
    amplitude := Complex.abs response
    phase := atan2 response.im response.re
    extra :=
      if index = 1 then Cell.equation1 a0 a1
      else if index = 3 then Cell.zero (-alpha1)
      else Cell.empty }

/-- The function `ReportOrder1Filter`: the header and the rows for `index = 0 .. c_numFrequencies - 1`. -/
def ReportOrder1Filter (a0 alpha1 : ℝ) : Report :=
  { header := [a0, alpha1]
    rows := (List.range c_numFrequencies).map (row1 a0 alpha1) }

/-! ## Order 2 -/

/-- The value `discriminant = alpha1 * alpha1 - 4.0f * alpha2`. -/
def discriminant (alpha1 alpha2 : ℝ) : ℝ := alpha1 * alpha1 - 4 * alpha2

/-- The local `left` of the zero computation: a zero complex whose real part is set to
`-alpha1 / 2.0f`. -/
def zeroLeft (alpha1 : ℝ) : ℂ := ⟨-alpha1 / 2, 0⟩

/-- The local `right` of the zero computation: a zero complex whose imaginary part is set,
in both branches of the test `discriminant < 0.0f`. -/
def zeroRight (alpha1 alpha2 : ℝ) : ℂ :=
  if discriminant alpha1 alpha2 < 0 then
    ⟨0, Real.sqrt (-discriminant alpha1 alpha2) / 2⟩
  else
    ⟨0, Real.sqrt (discriminant alpha1 alpha2) / 2⟩

/-- The value `zero1 = left - right`. -/
def zero1 (alpha1 alpha2 : ℝ) : ℂ := zeroLeft alpha1 - zeroRight alpha1 alpha2

/-- The value `zero2 = left + right`. -/
def zero2 (alpha1 alpha2 : ℝ) : ℂ := zeroLeft alpha1 + zeroRight alpha1 alpha2

/-- The response `a0 * (1.0f + alpha1 * Z(-1, angle) + alpha2 * Z(-2, angle))` of
`ReportOrder2Filter`. -/
def response2 (a0 alpha1 alpha2 angle : ℝ) : ℂ :=
  (a0 : ℂ) * (1 + (alpha1 : ℂ) * Z (-1) angle + (alpha2 : ℂ) * Z (-2) angle)

/-- The row printed by `ReportOrder2Filter` at loop index `index`. -/
def row2 (a0 alpha1 alpha2 : ℝ) (index : ℕ) : Row :=
  let a1 : ℝ := alpha1 * a0
  let a2 : ℝ := alpha2 * a0
  let response : ℂ := response2 a0 alpha1 alpha2 (angleAt index)
  { percent := percentAt index
    amplitude := Complex.abs response
    phase := atan2 response.im response.re
    extra :=
      if index = 1 then Cell.equation2 a0 a1 a2
      else if index = 3 then
        Cell.zeroes (zero1 alpha1 alpha2).re (zero1 alpha1 alpha2).im
          (zero2 alpha1 alpha2).re (zero2 alpha1 alpha2).im
      else Cell.empty }

/-- The function `ReportOrder2Filter`: the header and the rows for `index = 0 .. c_numFrequencies - 1`. -/
def ReportOrder2Filter (a0 alpha1 alpha2 : ℝ) : Report :=
  { header := [a0, alpha1, alpha2]
    rows := (List.range c_numFrequencies).map (row2 a0 alpha1 alpha2) }

/-- The characteristic polynomial `z^2 + alpha1*z + alpha2` whose roots are the zeros. -/
def charPoly (alpha1 alpha2 : ℝ) (z : ℂ) : ℂ := z ^ 2 + (alpha1 : ℂ) * z + (alpha2 : ℂ)

/-- The order-1 transfer function `a0 * (1 + alpha1 * z^-1)` as a function of `z`; the response
of `ReportOrder1Filter` is its value at `z = e^{j*angle}` (`response1_eq_transfer1`). -/
def transfer1 (a0 alpha1 : ℝ) (z : ℂ) : ℂ := (a0 : ℂ) * (1 + (alpha1 : ℂ) * z⁻¹)

end

/-! ## Applying a filter to a signal

A `std::vector<float>` is read as a list of reals; the function returns the vector `output`,
which the source resizes to the size of `input` and then writes at every index. -/

/-- The loop of `ApplyOrder1Filter`, from the current value of the local `sample_n_1` and the
inputs not yet read: a step reads `sample_n`, writes `sample_n * a0 + sample_n_1 * a1` and sets
`sample_n_1 = sample_n`. -/
def applyOrder1Loop (a0 a1 : ℝ) : ℝ → List ℝ → List ℝ
  | _, [] => []
  | sample_n_1, sample_n :: rest =>
      (sample_n * a0 + sample_n_1 * a1) :: applyOrder1Loop a0 a1 sample_n rest

/-- The function `ApplyOrder1Filter`: `a1 = alpha1 * a0`, `sample_n_1 = 0.0f`, then the loop. -/
def ApplyOrder1Filter (input : List ℝ) (a0 alpha1 : ℝ) : List ℝ :=
  let a1 : ℝ := alpha1 * a0
  applyOrder1Loop a0 a1 0 input

/-- The loop of `ApplyOrder2Filter`, from the current values of the locals `sample_n_2` and
`sample_n_1` and the inputs not yet read: a step reads `sample_n`, writes
`sample_n * a0 + sample_n_1 * a1 + sample_n_2 * a2`, then sets `sample_n_2 = sample_n_1` and
`sample_n_1 = sample_n`. -/
def applyOrder2Loop (a0 a1 a2 : ℝ) : ℝ → ℝ → List ℝ → List ℝ
  | _, _, [] => []
  | sample_n_2, sample_n_1, sample_n :: rest =>
      (sample_n * a0 + sample_n_1 * a1 + sample_n_2 * a2) ::
        applyOrder2Loop a0 a1 a2 sample_n_1 sample_n rest

/-- The function `ApplyOrder2Filter`: `a1 = alpha1 * a0`, `a2 = alpha2 * a0`, both remembered
samples `0.0f`, then the loop. -/
def ApplyOrder2Filter (input : List ℝ) (a0 alpha1 alpha2 : ℝ) : List ℝ :=
  let a1 : ℝ := alpha1 * a0
  let a2 : ℝ := alpha2 * a0
  applyOrder2Loop a0 a1 a2 0 0 input

/-- The sample `input[i - d]` of a difference equation, taken to be `0` when `i - d` is
negative (used to state the difference equations, not part of the source). -/
def delayed (input : List ℝ) (i d : ℕ) : ℝ :=
  if d ≤ i then input.getD (i - d) 0 else 0

/-! ## The zeros of the order-2 filter -/

theorem zeroRight_re (alpha1 alpha2 : ℝ) : (zeroRight alpha1 alpha2).re = 0 := by
  unfold zeroRight
  split <;> rfl

theorem zeroRight_im_of_nonneg (alpha1 alpha2 : ℝ) (h : 0 ≤ discriminant alpha1 alpha2) :
    (zeroRight alpha1 alpha2).im = Real.sqrt (discriminant alpha1 alpha2) / 2 := by
  unfold zeroRight
  rw [if_neg (not_lt.mpr h)]

theorem zeroRight_im_of_neg (alpha1 alpha2 : ℝ) (h : discriminant alpha1 alpha2 < 0) :
    (zeroRight alpha1 alpha2).im = Real.sqrt (-discriminant alpha1 alpha2) / 2 := by
  unfold zeroRight
  rw [if_pos h]

theorem zero1_re (alpha1 alpha2 : ℝ) : (zero1 alpha1 alpha2).re = -alpha1 / 2 := by
  simp [zero1, zeroLeft, zeroRight_re]

theorem zero2_re (alpha1 alpha2 : ℝ) : (zero2 alpha1 alpha2).re = -alpha1 / 2 := by
  simp [zero2, zeroLeft, zeroRight_re]

theorem zero1_im (alpha1 alpha2 : ℝ) :
    (zero1 alpha1 alpha2).im = -(zeroRight alpha1 alpha2).im := by
  simp [zero1, zeroLeft]

theorem zero2_im (alpha1 alpha2 : ℝ) :
    (zero2 alpha1 alpha2).im = (zeroRight alpha1 alpha2).im := by
  simp [zero2, zeroLeft]

theorem discriminant_three_two : discriminant 3 2 = 1 := by
  unfold discriminant
  norm_num

theorem zeroRight_three_two : zeroRight 3 2 = ⟨0, 1 / 2⟩ := by
  apply Complex.ext
  · exact zeroRight_re 3 2
  · rw [zeroRight_im_of_nonneg 3 2 (by rw [discriminant_three_two]; norm_num),
      discriminant_three_two, Real.sqrt_one]

theorem zero1_three_two : zero1 3 2 = ⟨-3 / 2, -1 / 2⟩ := by
  apply Complex.ext
  · rw [zero1_re]
  · rw [zero1_im, zeroRight_three_two]
    norm_num

theorem zero2_three_two : zero2 3 2 = ⟨-3 / 2, 1 / 2⟩ := by
  apply Complex.ext
  · rw [zero2_re]
  · rw [zero2_im, zeroRight_three_two]

/-- Value of the characteristic polynomial at a point `-alpha1/2 + j*y`. -/
theorem charPoly_mk (alpha1 alpha2 y : ℝ) :
    charPoly alpha1 alpha2 ⟨-alpha1 / 2, y⟩
      = ((-(alpha1 * alpha1 - 4 * alpha2) / 4 - y ^ 2 : ℝ) : ℂ) := by
  apply Complex.ext
  · simp [charPoly, pow_two]
    ring
  · simp [charPoly, pow_two]
    ring

theorem zero1_eq_mk (alpha1 alpha2 : ℝ) :
    zero1 alpha1 alpha2 = ⟨-alpha1 / 2, -(zeroRight alpha1 alpha2).im⟩ :=
  Complex.ext (zero1_re alpha1 alpha2) (zero1_im alpha1 alpha2)

theorem zero2_eq_mk (alpha1 alpha2 : ℝ) :
    zero2 alpha1 alpha2 = ⟨-alpha1 / 2, (zeroRight alpha1 alpha2).im⟩ :=
  Complex.ext (zero2_re alpha1 alpha2) (zero2_im alpha1 alpha2)

/-- With a negative discriminant both computed zeros are roots of the characteristic
polynomial. -/
theorem charPoly_zero_of_neg (alpha1 alpha2 : ℝ) (h : discriminant alpha1 alpha2 < 0) :
    charPoly alpha1 alpha2 (zero1 alpha1 alpha2) = 0 ∧
      charPoly alpha1 alpha2 (zero2 alpha1 alpha2) = 0 := by
  have hs : Real.sqrt (-discriminant alpha1 alpha2) ^ 2 = -discriminant alpha1 alpha2 :=
    Real.sq_sqrt (by linarith)
  have hd : discriminant alpha1 alpha2 = alpha1 * alpha1 - 4 * alpha2 := rfl
  constructor
  · rw [zero1_eq_mk, charPoly_mk, zeroRight_im_of_neg alpha1 alpha2 h]
    norm_cast
    rw [neg_sq, div_pow, hs, hd]
    ring
  · rw [zero2_eq_mk, charPoly_mk, zeroRight_im_of_neg alpha1 alpha2 h]
    norm_cast
    rw [div_pow, hs, hd]
    ring

/-- With a non-negative discriminant the characteristic polynomial takes the value
`-discriminant/2` at both computed zeros. -/
theorem charPoly_zero_of_nonneg (alpha1 alpha2 : ℝ) (h : 0 ≤ discriminant alpha1 alpha2) :
    charPoly alpha1 alpha2 (zero1 alpha1 alpha2) = ((-discriminant alpha1 alpha2 / 2 : ℝ) : ℂ) ∧
      charPoly alpha1 alpha2 (zero2 alpha1 alpha2)
        = ((-discriminant alpha1 alpha2 / 2 : ℝ) : ℂ) := by
  have hs : Real.sqrt (discriminant alpha1 alpha2) ^ 2 = discriminant alpha1 alpha2 :=
    Real.sq_sqrt h
  have hd : discriminant alpha1 alpha2 = alpha1 * alpha1 - 4 * alpha2 := rfl
  constructor
  · rw [zero1_eq_mk, charPoly_mk, zeroRight_im_of_nonneg alpha1 alpha2 h]
    norm_cast
    rw [neg_sq, div_pow, hs, hd]
    ring
  · rw [zero2_eq_mk, charPoly_mk, zeroRight_im_of_nonneg alpha1 alpha2 h]
    norm_cast
    rw [div_pow, hs, hd]
    ring

/-- C1 (code defect): at `alpha1 = 3`, `alpha2 = 2` the discriminant is `1 ≥ 0`, yet `right`
is the imaginary number `j/2`, and the reported zeros are `-3/2 - j/2` and `-3/2 + j/2`
(printed on row `3` of the report), with nonzero imaginary parts, instead of the real numbers
`-2` and `-1`. -/
theorem C1_real_branch_sets_imaginary_part :
    0 ≤ discriminant 3 2 ∧ zeroRight 3 2 = ⟨0, 1 / 2⟩ ∧ (zeroRight 3 2).im ≠ 0 ∧
      ((ReportOrder2Filter 0.5 3 2).rows.map Row.extra)[3]?
        = some (Cell.zeroes (-3 / 2) (-1 / 2) (-3 / 2) (1 / 2)) ∧
      zero1 3 2 = ⟨-3 / 2, -1 / 2⟩ ∧ zero2 3 2 = ⟨-3 / 2, 1 / 2⟩ ∧
      (zero1 3 2).im ≠ 0 ∧ (zero2 3 2).im ≠ 0 ∧
      zero1 3 2 ≠ ((-3 / 2 - Real.sqrt (discriminant 3 2) / 2 : ℝ) : ℂ) ∧
      zero2 3 2 ≠ ((-3 / 2 + Real.sqrt (discriminant 3 2) / 2 : ℝ) : ℂ) := by
  have h1 : (zero1 3 2).im = -1 / 2 := by rw [zero1_three_two]
  have h2 : (zero2 3 2).im = 1 / 2 := by rw [zero2_three_two]
  have hrow : ((ReportOrder2Filter 0.5 3 2).rows.map Row.extra)[3]?
      = some (Cell.zeroes (zero1 3 2).re (zero1 3 2).im (zero2 3 2).re (zero2 3 2).im) := by
    unfold ReportOrder2Filter c_numFrequencies
    rw [List.map_map, List.getElem?_map, List.getElem?_range (by norm_num)]
    rfl
  rw [zero1_three_two, zero2_three_two] at hrow
  refine ⟨by rw [discriminant_three_two]; norm_num, zeroRight_three_two, ?_, hrow,
    zero1_three_two, zero2_three_two, ?_, ?_, ?_, ?_⟩
  · rw [zeroRight_three_two]
    norm_num
  · rw [h1]
    norm_num
  · rw [h2]
    norm_num
  · intro h
    have := congrArg Complex.im h
    rw [h1, Complex.ofReal_im] at this
    norm_num at this
  · intro h
    have := congrArg Complex.im h
    rw [h2, Complex.ofReal_im] at this
    norm_num at this

/-- C2 (code defect): at `alpha1 = 3`, `alpha2 = 2` neither reported zero is a root of
`z^2 + alpha1*z + alpha2`: the polynomial takes the value `-1/2` at both. -/
theorem C2_reported_zero_not_a_root :
    charPoly 3 2 (zero1 3 2) = ((-1 / 2 : ℝ) : ℂ) ∧ charPoly 3 2 (zero2 3 2) = ((-1 / 2 : ℝ) : ℂ) ∧
      charPoly 3 2 (zero1 3 2) ≠ 0 ∧ charPoly 3 2 (zero2 3 2) ≠ 0 := by
  have h := charPoly_zero_of_nonneg 3 2 (by rw [discriminant_three_two]; norm_num)
  rw [discriminant_three_two] at h
  have hne : (((-1 / 2 : ℝ)) : ℂ) ≠ 0 := by
    rw [Ne, Complex.ofReal_eq_zero]
    norm_num
  exact ⟨h.1, h.2, by rw [h.1]; exact hne, by rw [h.2]; exact hne⟩

/-- C3: when `alpha1^2 < 4*alpha2` the two zeros are a complex-conjugate pair: both have real
part `-alpha1/2`, `zero1` has imaginary part `-sqrt(-D)/2`, `zero2` has imaginary part
`+sqrt(-D)/2`, and these imaginary parts are nonzero. -/
theorem C3_conjugate_pair (alpha1 alpha2 : ℝ) (h : alpha1 ^ 2 < 4 * alpha2) :
    (zero1 alpha1 alpha2).re = -alpha1 / 2 ∧ (zero2 alpha1 alpha2).re = -alpha1 / 2 ∧
      (zero1 alpha1 alpha2).im = -(Real.sqrt (-(alpha1 ^ 2 - 4 * alpha2)) / 2) ∧
      (zero2 alpha1 alpha2).im = Real.sqrt (-(alpha1 ^ 2 - 4 * alpha2)) / 2 ∧
      (zero1 alpha1 alpha2).im = -(zero2 alpha1 alpha2).im ∧
      (zero2 alpha1 alpha2).im ≠ 0 ∧
      zero1 alpha1 alpha2 = (starRingEnd ℂ) (zero2 alpha1 alpha2) := by
  have hd : discriminant alpha1 alpha2 = alpha1 ^ 2 - 4 * alpha2 := by
    unfold discriminant
    ring
  have hneg : discriminant alpha1 alpha2 < 0 := by
    rw [hd]
    linarith
  have him := zeroRight_im_of_neg alpha1 alpha2 hneg
  rw [hd] at him
  have hpos : 0 < Real.sqrt (-(alpha1 ^ 2 - 4 * alpha2)) :=
    Real.sqrt_pos.mpr (by linarith)
  refine ⟨zero1_re _ _, zero2_re _ _, ?_, ?_, ?_, ?_, ?_⟩
  · rw [zero1_im, him]
  · rw [zero2_im, him]
  · rw [zero1_im, zero2_im]
  · rw [zero2_im, him]
    positivity
  · apply Complex.ext
    · rw [Complex.conj_re, zero1_re, zero2_re]
    · rw [Complex.conj_im, zero1_im, zero2_im]

/-- C3 at the notch filter `alpha1 = 0`, `alpha2 = 1`. -/
theorem C3_conjugate_pair_witness :
    (0 : ℝ) ^ 2 < 4 * 1 ∧
      ((zero1 0 1).re = -0 / 2 ∧ (zero2 0 1).re = -0 / 2 ∧
        (zero1 0 1).im = -(Real.sqrt (-((0 : ℝ) ^ 2 - 4 * 1)) / 2) ∧
        (zero2 0 1).im = Real.sqrt (-((0 : ℝ) ^ 2 - 4 * 1)) / 2 ∧
        (zero1 0 1).im = -(zero2 0 1).im ∧
        (zero2 0 1).im ≠ 0 ∧
        zero1 0 1 = (starRingEnd ℂ) (zero2 0 1)) :=
  ⟨by norm_num, C3_conjugate_pair 0 1 (by norm_num)⟩

/-- C4: when `alpha1^2 = 4*alpha2` exactly, the test `discriminant < 0` is false and both
zeros equal `-alpha1/2`, with imaginary part exactly `0`. -/
theorem C4_double_zero (alpha1 alpha2 : ℝ) (h : alpha1 ^ 2 = 4 * alpha2) :
    ¬ (discriminant alpha1 alpha2 < 0) ∧
      zero1 alpha1 alpha2 = ((-alpha1 / 2 : ℝ) : ℂ) ∧
      zero2 alpha1 alpha2 = ((-alpha1 / 2 : ℝ) : ℂ) ∧
      (zero1 alpha1 alpha2).im = 0 ∧ (zero2 alpha1 alpha2).im = 0 := by
  have hd : discriminant alpha1 alpha2 = 0 := by
    unfold discriminant
    linarith [h, pow_two alpha1]
  have him : (zeroRight alpha1 alpha2).im = 0 := by
    rw [zeroRight_im_of_nonneg alpha1 alpha2 (le_of_eq hd.symm), hd, Real.sqrt_zero, zero_div]
  have h1 : (zero1 alpha1 alpha2).im = 0 := by rw [zero1_im, him, neg_zero]
  have h2 : (zero2 alpha1 alpha2).im = 0 := by rw [zero2_im, him]
  refine ⟨by rw [hd]; exact lt_irrefl 0, ?_, ?_, h1, h2⟩
  · apply Complex.ext
    · rw [zero1_re, Complex.ofReal_re]
    · rw [h1, Complex.ofReal_im]
  · apply Complex.ext
    · rw [zero2_re, Complex.ofReal_re]
    · rw [h2, Complex.ofReal_im]

/-- C4 at `alpha1 = 2`, `alpha2 = 1`. -/
theorem C4_double_zero_witness :
    (2 : ℝ) ^ 2 = 4 * 1 ∧
      (¬ (discriminant 2 1 < 0) ∧
        zero1 2 1 = ((-2 / 2 : ℝ) : ℂ) ∧
        zero2 2 1 = ((-2 / 2 : ℝ) : ℂ) ∧
        (zero1 2 1).im = 0 ∧ (zero2 2 1).im = 0) :=
  ⟨by norm_num, C4_double_zero 2 1 (by norm_num)⟩

/-! ## The unit-delay evaluator -/

theorem Z_re (d : ℤ) (theta : ℝ) : (Z d theta).re = Real.cos ((d : ℝ) * theta) := by
  simp [Z, polar]

theorem Z_im (d : ℤ) (theta : ℝ) : (Z d theta).im = Real.sin ((d : ℝ) * theta) := by
  simp [Z, polar]

theorem Z_eq_exp (d : ℤ) (theta : ℝ) :
    Z d theta = Complex.exp ((((d : ℝ) * theta : ℝ) : ℂ) * Complex.I) := by
  apply Complex.ext
  · rw [Z_re, Complex.exp_ofReal_mul_I_re]
  · rw [Z_im, Complex.exp_ofReal_mul_I_im]

theorem Z_eq_zpow (d : ℤ) (theta : ℝ) :
    Z d theta = Complex.exp ((theta : ℂ) * Complex.I) ^ d := by
  rw [Z_eq_exp, ← Complex.exp_int_mul]
  congr 1
  push_cast
  ring

theorem abs_Z (d : ℤ) (theta : ℝ) : Complex.abs (Z d theta) = 1 := by
  rw [Z_eq_exp, Complex.abs_exp_ofReal_mul_I]

/-- C5: for every integer delay `d` and real angle `theta`, `Z d theta` is
`cos(d*theta) + j*sin(d*theta)`, its magnitude is exactly `1`, its argument is `d*theta`
up to an integer multiple of `2π`, and it is the `d`-th power of `e^{j*theta}`. -/
theorem C5_unit_delay (d : ℤ) (theta : ℝ) :
    Z d theta = ⟨Real.cos ((d : ℝ) * theta), Real.sin ((d : ℝ) * theta)⟩ ∧
      Complex.abs (Z d theta) = 1 ∧
      (∃ k : ℤ, Complex.arg (Z d theta) = (d : ℝ) * theta + (k : ℝ) * (2 * Real.pi)) ∧
      Z d theta = Complex.exp ((theta : ℂ) * Complex.I) ^ d := by
  refine ⟨Complex.ext (Z_re d theta) (Z_im d theta), abs_Z d theta, ?_, Z_eq_zpow d theta⟩
  have h : ((Complex.arg (Z d theta) : ℝ) : Real.Angle) = (((d : ℝ) * theta : ℝ) : Real.Angle) := by
    rw [Z_eq_exp, Complex.exp_mul_I, ← Complex.ofReal_cos, ← Complex.ofReal_sin]
    have := Complex.arg_cos_add_sin_mul_I_coe_angle ((((d : ℝ) * theta : ℝ)) : Real.Angle)
    rw [Real.Angle.cos_coe, Real.Angle.sin_coe] at this
    exact this
  obtain ⟨k, hk⟩ := Real.Angle.angle_eq_iff_two_pi_dvd_sub.mp h
  exact ⟨k, by linarith⟩

/-! ## The rows of the two reports -/

theorem rows1_getElem? (a0 alpha1 : ℝ) (i : ℕ) (h : i < 100) :
    (ReportOrder1Filter a0 alpha1).rows[i]? = some (row1 a0 alpha1 i) := by
  unfold ReportOrder1Filter c_numFrequencies
  rw [List.getElem?_map, List.getElem?_range h]
  rfl

theorem rows2_getElem? (a0 alpha1 alpha2 : ℝ) (i : ℕ) (h : i < 100) :
    (ReportOrder2Filter a0 alpha1 alpha2).rows[i]? = some (row2 a0 alpha1 alpha2 i) := by
  unfold ReportOrder2Filter c_numFrequencies
  rw [List.getElem?_map, List.getElem?_range h]
  rfl

theorem percentAt_eq (i : ℕ) : percentAt i = (i : ℝ) / 99 := by
  unfold percentAt c_numFrequencies
  norm_num

theorem percents1 (a0 alpha1 : ℝ) :
    (ReportOrder1Filter a0 alpha1).rows.map Row.percent
      = (List.range 100).map (fun i : ℕ => (i : ℝ) / 99) := by
  unfold ReportOrder1Filter c_numFrequencies
  rw [List.map_map]
  apply List.map_congr_left
  intro i _
  exact percentAt_eq i

theorem percents2 (a0 alpha1 alpha2 : ℝ) :
    (ReportOrder2Filter a0 alpha1 alpha2).rows.map Row.percent
      = (List.range 100).map (fun i : ℕ => (i : ℝ) / 99) := by
  unfold ReportOrder2Filter c_numFrequencies
  rw [List.map_map]
  apply List.map_congr_left
  intro i _
  exact percentAt_eq i

theorem grid_getElem? (i : ℕ) (h : i < 100) :
    ((List.range 100).map (fun i : ℕ => (i : ℝ) / 99))[i]? = some ((i : ℝ) / 99) := by
  rw [List.getElem?_map, List.getElem?_range h]
  rfl

/-- The properties of the evenly spaced grid `0/99, 1/99, ..., 99/99`. -/
theorem grid_properties (P : List ℝ)
    (hP : P = (List.range 100).map (fun i : ℕ => (i : ℝ) / 99)) :
    P.length = 100 ∧ P[0]? = some 0 ∧ P[99]? = some 1 ∧
      (∀ i : Fin 99, ∃ p q : ℝ, P[(i : ℕ)]? = some p ∧ P[(i : ℕ) + 1]? = some q ∧
        q - p = 1 / 99) ∧
      P.Pairwise (fun p q => p < q) := by
  subst hP
  refine ⟨by simp, ?_, ?_, ?_, ?_⟩
  · rw [grid_getElem? 0 (by norm_num)]
    norm_num
  · rw [grid_getElem? 99 (by norm_num)]
    norm_num
  · intro i
    refine ⟨((i : ℕ) : ℝ) / 99, (((i : ℕ) + 1 : ℕ) : ℝ) / 99,
      grid_getElem? i (by omega), grid_getElem? (i + 1) (by omega), ?_⟩
    push_cast
    ring
  · rw [List.pairwise_map]
    refine (List.pairwise_lt_range 100).imp ?_
    intro a b hab
    have hab2 : (a : ℝ) < b := by exact_mod_cast hab
    exact div_lt_div_of_pos_right hab2 (by norm_num)

/-- C6: for every choice of coefficients both reports have exactly `100` rows
(`c_numFrequencies`), the `i`-th percent is `i/99`, the first percent is `0`, the last is `1`,
consecutive percents differ by `1/99`, and percents strictly increase with the index. -/
theorem C6_response_curve_grid (a0 alpha1 alpha2 : ℝ) :
    c_numFrequencies = 100 ∧
      (ReportOrder1Filter a0 alpha1).rows.length = c_numFrequencies ∧
      (ReportOrder2Filter a0 alpha1 alpha2).rows.length = c_numFrequencies ∧
      (ReportOrder1Filter a0 alpha1).rows.map Row.percent
        = (List.range 100).map (fun i : ℕ => (i : ℝ) / 99) ∧
      (ReportOrder2Filter a0 alpha1 alpha2).rows.map Row.percent
        = (List.range 100).map (fun i : ℕ => (i : ℝ) / 99) ∧
      ((ReportOrder1Filter a0 alpha1).rows.map Row.percent)[0]? = some 0 ∧
      ((ReportOrder2Filter a0 alpha1 alpha2).rows.map Row.percent)[0]? = some 0 ∧
      ((ReportOrder1Filter a0 alpha1).rows.map Row.percent)[99]? = some 1 ∧
      ((ReportOrder2Filter a0 alpha1 alpha2).rows.map Row.percent)[99]? = some 1 ∧
      (∀ i : Fin 99, ∃ p q : ℝ,
        ((ReportOrder1Filter a0 alpha1).rows.map Row.percent)[(i : ℕ)]? = some p ∧
        ((ReportOrder1Filter a0 alpha1).rows.map Row.percent)[(i : ℕ) + 1]? = some q ∧
        q - p = 1 / 99) ∧
      (∀ i : Fin 99, ∃ p q : ℝ,
        ((ReportOrder2Filter a0 alpha1 alpha2).rows.map Row.percent)[(i : ℕ)]? = some p ∧
        ((ReportOrder2Filter a0 alpha1 alpha2).rows.map Row.percent)[(i : ℕ) + 1]? = some q ∧
        q - p = 1 / 99) ∧
      ((ReportOrder1Filter a0 alpha1).rows.map Row.percent).Pairwise (fun p q => p < q) ∧
      ((ReportOrder2Filter a0 alpha1 alpha2).rows.map Row.percent).Pairwise
        (fun p q => p < q) := by
  have h1 := grid_properties _ (percents1 a0 alpha1)
  have h2 := grid_properties _ (percents2 a0 alpha1 alpha2)
  have l1 : (ReportOrder1Filter a0 alpha1).rows.length = 100 := by
    simp [ReportOrder1Filter, c_numFrequencies]
  have l2 : (ReportOrder2Filter a0 alpha1 alpha2).rows.length = 100 := by
    simp [ReportOrder2Filter, c_numFrequencies]
  exact ⟨rfl, l1, l2, percents1 a0 alpha1, percents2 a0 alpha1 alpha2, h1.2.1, h2.2.1,
    h1.2.2.1, h2.2.2.1, h1.2.2.2.1, h2.2.2.2.1, h1.2.2.2.2, h2.2.2.2.2⟩

/-! ## Order 1: the first row and the zero -/

theorem Z_angle_zero (d : ℤ) : Z d 0 = 1 := by
  apply Complex.ext
  · rw [Z_re]
    simp
  · rw [Z_im]
    simp

theorem angleAt_zero : angleAt 0 = 0 := by
  unfold angleAt
  rw [percentAt_eq]
  simp

theorem amplitudes1_getElem? (a0 alpha1 : ℝ) (i : ℕ) (h : i < 100) :
    ((ReportOrder1Filter a0 alpha1).rows.map Row.amplitude)[i]?
      = some (Complex.abs (response1 a0 alpha1 (angleAt i))) := by
  rw [List.getElem?_map, rows1_getElem? a0 alpha1 i h]
  rfl

theorem response1_at_zero (a0 alpha1 : ℝ) :
    response1 a0 alpha1 0 = ((a0 * (1 + alpha1) : ℝ) : ℂ) := by
  unfold response1
  rw [Z_angle_zero]
  push_cast
  ring

/-- C8: the first row (index `0`) of the order-1 report has percent `0`, angle `0` and
amplitude `|a0*(1 + alpha1)|`; for the box low-pass filter `(0.5, 1)` this amplitude is `1`. -/
theorem C8_dc_amplitude (a0 alpha1 : ℝ) :
    ((ReportOrder1Filter a0 alpha1).rows.map Row.percent)[0]? = some 0 ∧
      angleAt 0 = 0 ∧
      ((ReportOrder1Filter a0 alpha1).rows.map Row.amplitude)[0]?
        = some |a0 * (1 + alpha1)| ∧
      ((ReportOrder1Filter 0.5 1).rows.map Row.amplitude)[0]? = some 1 := by
  have key : ∀ b c : ℝ, ((ReportOrder1Filter b c).rows.map Row.amplitude)[0]?
      = some |b * (1 + c)| := by
    intro b c
    rw [amplitudes1_getElem? b c 0 (by norm_num), angleAt_zero, response1_at_zero,
      Complex.abs_ofReal]
  refine ⟨(grid_properties _ (percents1 a0 alpha1)).2.1, angleAt_zero, key a0 alpha1, ?_⟩
  rw [key]
  norm_num

theorem response1_eq_transfer1 (a0 alpha1 theta : ℝ) :
    response1 a0 alpha1 theta = transfer1 a0 alpha1 (Complex.exp ((theta : ℂ) * Complex.I)) := by
  unfold response1 transfer1
  rw [Z_eq_zpow, zpow_neg_one]

/-- C10: the zero printed by the order-1 report (row `3`) is `-alpha1`; the response of the
report is the transfer function `a0*(1 + alpha1*z^-1)` at `z = e^{j*theta}`; and for
`alpha1 ≠ 0` the value `z = -alpha1` is the root of `1 + alpha1*z^-1 = 0`, so the transfer
function is `0` there. -/
theorem C10_order1_zero (a0 alpha1 : ℝ) :
    ((ReportOrder1Filter a0 alpha1).rows.map Row.extra)[3]? = some (Cell.zero (-alpha1)) ∧
      (∀ theta : ℝ, response1 a0 alpha1 theta
        = transfer1 a0 alpha1 (Complex.exp ((theta : ℂ) * Complex.I))) ∧
      (alpha1 ≠ 0 →
        (∀ z : ℂ, 1 + (alpha1 : ℂ) * z⁻¹ = 0 ↔ z = ((-alpha1 : ℝ) : ℂ)) ∧
        transfer1 a0 alpha1 ((-alpha1 : ℝ) : ℂ) = 0) := by
  refine ⟨?_, response1_eq_transfer1 a0 alpha1, ?_⟩
  · rw [List.getElem?_map, rows1_getElem? a0 alpha1 3 (by norm_num)]
    rfl
  · intro h
    have hc : (alpha1 : ℂ) ≠ 0 := Complex.ofReal_ne_zero.mpr h
    have root : ∀ z : ℂ, 1 + (alpha1 : ℂ) * z⁻¹ = 0 ↔ z = ((-alpha1 : ℝ) : ℂ) := by
      intro z
      constructor
      · intro hz
        have hz0 : z ≠ 0 := by
          rintro rfl
          simp at hz
        have h2 : z + (alpha1 : ℂ) = 0 := by
          have := congrArg (fun w => w * z) hz
          simp only [add_mul, one_mul, zero_mul] at this
          rwa [mul_assoc, inv_mul_cancel₀ hz0, mul_one] at this
        rw [Complex.ofReal_neg]
        exact eq_neg_of_add_eq_zero_left h2
      · rintro rfl
        rw [Complex.ofReal_neg, inv_neg, mul_neg, mul_inv_cancel₀ hc]
        ring
    refine ⟨root, ?_⟩
    unfold transfer1
    rw [(root _).mpr rfl, mul_zero]

/-- C10 at the box filter `a0 = 0.5`, `alpha1 = 1`. -/
theorem C10_order1_zero_witness :
    (1 : ℝ) ≠ 0 ∧
      ((ReportOrder1Filter 0.5 1).rows.map Row.extra)[3]? = some (Cell.zero (-1)) ∧
      ((∀ z : ℂ, 1 + ((1 : ℝ) : ℂ) * z⁻¹ = 0 ↔ z = ((-1 : ℝ) : ℂ)) ∧
        transfer1 0.5 1 ((-1 : ℝ) : ℂ) = 0) :=
  ⟨one_ne_zero, (C10_order1_zero 0.5 1).1, (C10_order1_zero 0.5 1).2.2 one_ne_zero⟩

/-! ## Amplitudes at the notch -/

/-- The sum `Z(-1, theta) + 1` is `2*cos(theta/2)` times the unit number `Z(-1, theta/2)`. -/
theorem Z_neg_one_add_one (theta : ℝ) :
    Z (-1) theta + 1 = ((2 * Real.cos (theta / 2) : ℝ) : ℂ) * Z (-1) (theta / 2) := by
  have hc : Real.cos theta = 2 * Real.cos (theta / 2) ^ 2 - 1 := by
    rw [← Real.cos_two_mul]
    congr 1
    ring
  have hs : Real.sin theta = 2 * Real.sin (theta / 2) * Real.cos (theta / 2) := by
    rw [← Real.sin_two_mul]
    congr 1
    ring
  apply Complex.ext
  · simp only [Complex.add_re, Complex.one_re, Complex.mul_re, Complex.ofReal_re,
      Complex.ofReal_im, Z_re, Z_im]
    push_cast
    rw [neg_one_mul, neg_one_mul, Real.cos_neg, Real.cos_neg, hc]
    ring
  · simp only [Complex.add_im, Complex.one_im, Complex.mul_im, Complex.ofReal_re,
      Complex.ofReal_im, Z_re, Z_im]
    push_cast
    rw [neg_one_mul, neg_one_mul, Real.sin_neg, Real.sin_neg, hs]
    ring

theorem abs_Z_neg_one_add_one (theta : ℝ) :
    Complex.abs (Z (-1) theta + 1) = 2 * |Real.cos (theta / 2)| := by
  rw [Z_neg_one_add_one, map_mul, abs_Z, mul_one, Complex.abs_ofReal, abs_mul]
  norm_num

theorem Z_neg_two (theta : ℝ) : Z (-2) theta = Z (-1) (2 * theta) := by
  unfold Z
  congr 1
  push_cast
  ring

/-- The amplitude of the notch filter `(0.5, 0, 1)` at angle `theta` is `|cos theta|`. -/
theorem abs_response2_notch (theta : ℝ) :
    Complex.abs (response2 0.5 0 1 theta) = |Real.cos theta| := by
  have h : response2 0.5 0 1 theta = ((0.5 : ℝ) : ℂ) * (Z (-1) (2 * theta) + 1) := by
    unfold response2
    rw [Z_neg_two]
    push_cast
    ring
  rw [h, map_mul, abs_Z_neg_one_add_one, Complex.abs_ofReal]
  have h2 : 2 * theta / 2 = theta := by ring
  have h3 : |(0.5 : ℝ)| = 1 / 2 := by
    rw [abs_of_pos] <;> norm_num
  rw [h2, h3]
  ring

/-- C7: for the notch filter `(0.5, 0, 1)` and every percent in `[0, 1]`, the amplitude of the
response at `theta = percent*π` is `0` exactly when `percent = 0.5`: it is `0` at half-Nyquist and
nonzero for every other percent. -/
theorem C7_notch_amplitude (percent : ℝ) (h0 : 0 ≤ percent) (h1 : percent ≤ 1) :
    Complex.abs (response2 0.5 0 1 (percent * Real.pi)) = 0 ↔ percent = 0.5 := by
  rw [abs_response2_notch, abs_eq_zero]
  have hpi := Real.pi_pos
  constructor
  · intro h
    have hmem : percent * Real.pi ∈ Set.Icc 0 Real.pi :=
      ⟨mul_nonneg h0 hpi.le, by nlinarith⟩
    have hhalf : Real.pi / 2 ∈ Set.Icc 0 Real.pi := ⟨by linarith, by linarith⟩
    have heq : percent * Real.pi = Real.pi / 2 :=
      Real.injOn_cos hmem hhalf (by rw [h, Real.cos_pi_div_two])
    have : percent = 1 / 2 := by
      field_simp at heq ⊢
      nlinarith
    rw [this]
    norm_num
  · intro h
    rw [h]
    have : (0.5 : ℝ) * Real.pi = Real.pi / 2 := by ring
    rw [this, Real.cos_pi_div_two]

/-- C7 at half-Nyquist, `percent = 0.5`. -/
theorem C7_notch_amplitude_witness :
    (0 : ℝ) ≤ 0.5 ∧ (0.5 : ℝ) ≤ 1 ∧
      (Complex.abs (response2 0.5 0 1 (0.5 * Real.pi)) = 0 ↔ (0.5 : ℝ) = 0.5) :=
  ⟨by norm_num, by norm_num, C7_notch_amplitude 0.5 (by norm_num) (by norm_num)⟩

/-! ## The constant `c_pi` -/

theorem c_pi_gt_pi : Real.pi < c_pi := by
  unfold c_pi
  have := Real.pi_lt_d20
  have h : (3.14159265358979323847 : ℝ) < 13176795 / 4194304 := by norm_num
  linarith

theorem c_pi_sub_pi_lt : c_pi - Real.pi < 1 / 10 ^ 7 := by
  unfold c_pi
  have := Real.pi_gt_d20
  have h : (13176795 / 4194304 : ℝ) - 3.14159265358979323846 < 1 / 10 ^ 7 := by norm_num
  linarith

/-! ## Applying the filters: the difference equations -/

theorem applyOrder1Loop_length (a0 a1 s : ℝ) (l : List ℝ) :
    (applyOrder1Loop a0 a1 s l).length = l.length := by
  induction l generalizing s with
  | nil => rfl
  | cons x rest ih => simp [applyOrder1Loop, ih]

theorem applyOrder2Loop_length (a0 a1 a2 s2 s1 : ℝ) (l : List ℝ) :
    (applyOrder2Loop a0 a1 a2 s2 s1 l).length = l.length := by
  induction l generalizing s2 s1 with
  | nil => rfl
  | cons x rest ih => simp [applyOrder2Loop, ih]

/-- The previous sample seen by the loop at step `i`: the initial `s` at step `0`, else the
input of step `i - 1`. -/
theorem prev_cons (x s : ℝ) (rest : List ℝ) (j : ℕ) :
    (if j = 0 then x else rest.getD (j - 1) 0)
      = (if j + 1 = 0 then s else (x :: rest).getD (j + 1 - 1) 0) := by
  cases j with
  | zero => simp
  | succ k => simp

theorem applyOrder1Loop_getElem? (a0 a1 s : ℝ) (l : List ℝ) (i : ℕ) :
    (applyOrder1Loop a0 a1 s l)[i]?
      = l[i]?.map (fun x => x * a0 + (if i = 0 then s else l.getD (i - 1) 0) * a1) := by
  induction l generalizing s i with
  | nil => simp [applyOrder1Loop]
  | cons x rest ih =>
    cases i with
    | zero => simp [applyOrder1Loop]
    | succ j =>
      simp only [applyOrder1Loop, List.getElem?_cons_succ]
      rw [ih, prev_cons x s rest j]

theorem applyOrder2Loop_getElem? (a0 a1 a2 s2 s1 : ℝ) (l : List ℝ) (i : ℕ) :
    (applyOrder2Loop a0 a1 a2 s2 s1 l)[i]?
      = l[i]?.map (fun x => x * a0 + (if i = 0 then s1 else l.getD (i - 1) 0) * a1
          + (if i = 0 then s2 else if i = 1 then s1 else l.getD (i - 2) 0) * a2) := by
  induction l generalizing s2 s1 i with
  | nil => simp [applyOrder2Loop]
  | cons x rest ih =>
    cases i with
    | zero => simp [applyOrder2Loop]
    | succ j =>
      simp only [applyOrder2Loop, List.getElem?_cons_succ]
      rw [ih, prev_cons x s1 rest j]
      cases j with
      | zero => simp
      | succ k =>
        cases k with
        | zero => simp
        | succ m => simp

theorem delayed_one (input : List ℝ) (i : ℕ) :
    delayed input i 1 = if i = 0 then 0 else input.getD (i - 1) 0 := by
  unfold delayed
  cases i with
  | zero => simp
  | succ j => simp

theorem delayed_two (input : List ℝ) (i : ℕ) :
    delayed input i 2 = if i = 0 then 0 else if i = 1 then 0 else input.getD (i - 2) 0 := by
  unfold delayed
  cases i with
  | zero => simp
  | succ j =>
    cases j with
    | zero => simp
    | succ k => simp

theorem ApplyOrder1Filter_getElem? (input : List ℝ) (a0 alpha1 : ℝ) (i : ℕ) :
    (ApplyOrder1Filter input a0 alpha1)[i]?
      = input[i]?.map (fun x => x * a0 + delayed input i 1 * (alpha1 * a0)) := by
  unfold ApplyOrder1Filter
  rw [applyOrder1Loop_getElem?, delayed_one]

theorem ApplyOrder2Filter_getElem? (input : List ℝ) (a0 alpha1 alpha2 : ℝ) (i : ℕ) :
    (ApplyOrder2Filter input a0 alpha1 alpha2)[i]?
      = input[i]?.map (fun x => x * a0 + delayed input i 1 * (alpha1 * a0)
          + delayed input i 2 * (alpha2 * a0)) := by
  unfold ApplyOrder2Filter
  rw [applyOrder2Loop_getElem?, delayed_one, delayed_two]

/-- C11: for every input and every `a0`, `alpha1`, the output of `ApplyOrder1Filter` has the
length of the input and `output[i] = input[i]*a0 + input[i-1]*(alpha1*a0)` at every valid
index `i`, with `input[-1] = 0`, so `output[0] = input[0]*a0`; the taps `a0` and `alpha1*a0`
are the ones printed in the difference equation of the order-1 report (row `1`). -/
theorem C11_apply_order1 (input : List ℝ) (a0 alpha1 : ℝ) :
    (ApplyOrder1Filter input a0 alpha1).length = input.length ∧
      (∀ i : ℕ, (ApplyOrder1Filter input a0 alpha1)[i]?
        = input[i]?.map (fun x => x * a0 + delayed input i 1 * (alpha1 * a0))) ∧
      delayed input 0 1 = 0 ∧
      (∀ i : ℕ, delayed input (i + 1) 1 = input.getD i 0) ∧
      (ApplyOrder1Filter input a0 alpha1)[0]? = input[0]?.map (fun x => x * a0) ∧
      ((ReportOrder1Filter a0 alpha1).rows.map Row.extra)[1]?
        = some (Cell.equation1 a0 (alpha1 * a0)) := by
  refine ⟨applyOrder1Loop_length _ _ _ _, ApplyOrder1Filter_getElem? input a0 alpha1,
    by simp [delayed], fun i => by simp [delayed], ?_, ?_⟩
  · rw [ApplyOrder1Filter_getElem?]
    simp [delayed]
  · rw [List.getElem?_map, rows1_getElem? a0 alpha1 1 (by norm_num)]
    rfl

/-- C12: for every input and every `a0`, `alpha1`, `alpha2`, the output of `ApplyOrder2Filter`
has the length of the input and
`output[i] = input[i]*a0 + input[i-1]*(alpha1*a0) + input[i-2]*(alpha2*a0)` at every valid
index `i`, with `input[-1] = input[-2] = 0`: a weighted sum of the current and the two previous
input samples, in which no output sample occurs. -/
theorem C12_apply_order2 (input : List ℝ) (a0 alpha1 alpha2 : ℝ) :
    (ApplyOrder2Filter input a0 alpha1 alpha2).length = input.length ∧
      (∀ i : ℕ, (ApplyOrder2Filter input a0 alpha1 alpha2)[i]?
        = input[i]?.map (fun x => x * a0 + delayed input i 1 * (alpha1 * a0)
            + delayed input i 2 * (alpha2 * a0))) ∧
      delayed input 0 1 = 0 ∧ delayed input 0 2 = 0 ∧ delayed input 1 2 = 0 ∧
      (∀ i : ℕ, delayed input (i + 1) 1 = input.getD i 0) ∧
      (∀ i : ℕ, delayed input (i + 2) 2 = input.getD i 0) := by
  refine ⟨applyOrder2Loop_length _ _ _ _ _ _, ApplyOrder2Filter_getElem? input a0 alpha1 alpha2,
    by simp [delayed], by simp [delayed], by simp [delayed], fun i => by simp [delayed],
    fun i => by simp [delayed]⟩

theorem applyOrder2Loop_zero_tap (a0 a1 s2 s1 : ℝ) (l : List ℝ) :
    applyOrder2Loop a0 a1 0 s2 s1 l = applyOrder1Loop a0 a1 s1 l := by
  induction l generalizing s2 s1 with
  | nil => rfl
  | cons x rest ih =>
    simp only [applyOrder2Loop, applyOrder1Loop]
    rw [ih, mul_zero, add_zero]

/-- C15: for every input and every `a0`, `alpha1`, `ApplyOrder2Filter` with `alpha2 = 0` returns
exactly the output of `ApplyOrder1Filter`. -/
theorem C15_order2_degenerates (input : List ℝ) (a0 alpha1 : ℝ) :
    ApplyOrder2Filter input a0 alpha1 0 = ApplyOrder1Filter input a0 alpha1 := by
  unfold ApplyOrder2Filter ApplyOrder1Filter
  simp only [zero_mul]
  exact applyOrder2Loop_zero_tap a0 (alpha1 * a0) 0 0 input

theorem applyOrder2Loop_silence (a0 a1 a2 : ℝ) (m : ℕ) :
    applyOrder2Loop a0 a1 a2 0 0 (List.replicate m 0) = List.replicate m 0 := by
  induction m with
  | zero => rfl
  | succ k ih =>
    rw [List.replicate_succ]
    simp only [applyOrder2Loop]
    rw [ih]
    simp

/-- C18: for every `a0`, `alpha1`, `alpha2` and every length `n ≥ 3`, `ApplyOrder2Filter` maps
the unit impulse of length `n` (`1` at index `0`, `0` elsewhere) to
`[a0, alpha1*a0, alpha2*a0, 0, ..., 0]`, of length `n`: the tap weights, then zeros from index
`3` on. -/
theorem C18_impulse_response (a0 alpha1 alpha2 : ℝ) (n : ℕ) (h : 3 ≤ n) :
    (1 :: List.replicate (n - 1) (0 : ℝ)).length = n ∧
      ApplyOrder2Filter (1 :: List.replicate (n - 1) 0) a0 alpha1 alpha2
        = [a0, alpha1 * a0, alpha2 * a0] ++ List.replicate (n - 3) 0 ∧
      ([a0, alpha1 * a0, alpha2 * a0] ++ List.replicate (n - 3) (0 : ℝ)).length = n := by
  obtain ⟨m, rfl⟩ : ∃ m, n = m + 3 := ⟨n - 3, by omega⟩
  refine ⟨by simp, ?_, by simp⟩
  have h1 : m + 3 - 1 = m + 2 := by omega
  have h3 : m + 3 - 3 = m := by omega
  rw [h1, h3, List.replicate_succ, List.replicate_succ]
  unfold ApplyOrder2Filter
  simp only [applyOrder2Loop]
  rw [applyOrder2Loop_silence]
  simp

/-- C18 at length `n = 5`. -/
theorem C18_impulse_response_witness :
    3 ≤ 5 ∧
      ApplyOrder2Filter (1 :: List.replicate (5 - 1) 0) 0.5 2 1.22
        = [0.5, 2 * 0.5, 1.22 * 0.5] ++ List.replicate (5 - 3) 0 :=
  ⟨by decide, (C18_impulse_response 0.5 2 1.22 5 (by decide)).2.1⟩

/-! ## The phase of the order-1 response -/

theorem atan2_eq_arg (w : ℂ) : atan2 w.im w.re = Complex.arg w := by
  unfold atan2
  rw [Complex.eta]

theorem response1_re (a0 alpha1 theta : ℝ) :
    (response1 a0 alpha1 theta).re = a0 * (1 + alpha1 * Real.cos theta) := by
  unfold response1
  simp only [Complex.mul_re, Complex.add_re, Complex.one_re, Complex.ofReal_re,
    Complex.ofReal_im, Complex.add_im, Complex.one_im, Complex.mul_im, Z_re, Z_im]
  push_cast
  rw [neg_one_mul, Real.cos_neg]
  ring

theorem response1_im (a0 alpha1 theta : ℝ) :
    (response1 a0 alpha1 theta).im = -(a0 * alpha1 * Real.sin theta) := by
  unfold response1
  simp only [Complex.mul_re, Complex.add_re, Complex.one_re, Complex.ofReal_re,
    Complex.ofReal_im, Complex.add_im, Complex.one_im, Complex.mul_im, Z_re, Z_im]
  push_cast
  rw [neg_one_mul, Real.sin_neg]
  ring

/-- The box response is `a0 * 2*cos(theta/2)` times the unit number of angle `-theta/2`. -/
theorem response1_box (a0 theta : ℝ) :
    response1 a0 1 theta
      = ((a0 * (2 * Real.cos (theta / 2)) : ℝ) : ℂ) *
          (Complex.cos ((-(theta / 2) : ℝ) : ℂ) + Complex.sin ((-(theta / 2) : ℝ) : ℂ) * Complex.I) := by
  have h1 : response1 a0 1 theta = (a0 : ℂ) * (Z (-1) theta + 1) := by
    unfold response1
    push_cast
    ring
  have h2 : (((-1 : ℤ) : ℝ) * (theta / 2)) = -(theta / 2) := by
    push_cast
    ring
  rw [h1, Z_neg_one_add_one, Z_eq_exp, h2, Complex.exp_mul_I]
  push_cast
  ring

/-- C17: for `alpha1 = 1`, every `a0 > 0` and every `theta` in `[0, π)`, the phase
`atan2(Im H, Re H)` of the response `H = a0*(1 + Z(-1, theta))` is `-theta/2`. -/
theorem C17_box_linear_phase (a0 theta : ℝ) (ha : 0 < a0) (h0 : 0 ≤ theta)
    (h1 : theta < Real.pi) :
    atan2 (response1 a0 1 theta).im (response1 a0 1 theta).re = -theta / 2 := by
  have hcos : 0 < Real.cos (theta / 2) :=
    Real.cos_pos_of_mem_Ioo ⟨by linarith [Real.pi_pos], by linarith⟩
  have hr : 0 < a0 * (2 * Real.cos (theta / 2)) := by positivity
  have hmem : -(theta / 2) ∈ Set.Ioc (-Real.pi) Real.pi :=
    ⟨by linarith, by linarith [Real.pi_pos]⟩
  rw [atan2_eq_arg, response1_box, Complex.arg_mul_cos_add_sin_mul_I hr hmem]
  ring

/-- C17 at `a0 = 0.5`, `theta = 1`. -/
theorem C17_box_linear_phase_witness :
    (0 : ℝ) < 0.5 ∧ (0 : ℝ) ≤ 1 ∧ (1 : ℝ) < Real.pi ∧
      atan2 (response1 0.5 1 1).im (response1 0.5 1 1).re = -1 / 2 :=
  ⟨by norm_num, by norm_num, by linarith [Real.pi_gt_three],
    C17_box_linear_phase 0.5 1 (by norm_num) (by norm_num) (by linarith [Real.pi_gt_three])⟩

theorem phase_lpf2_at_zero :
    atan2 (response1 0.5 2 0).im (response1 0.5 2 0).re = 0 := by
  rw [atan2_eq_arg, response1_at_zero]
  exact Complex.arg_ofReal_of_nonneg (by norm_num)

theorem phase_lpf2_at_two_thirds :
    atan2 (response1 0.5 2 (2 * Real.pi / 3)).im (response1 0.5 2 (2 * Real.pi / 3)).re
      = -(Real.pi / 2) := by
  have hang : 2 * Real.pi / 3 = Real.pi - Real.pi / 3 := by ring
  have hsqrt : 0 < Real.sqrt 3 := Real.sqrt_pos.mpr (by norm_num)
  rw [atan2_eq_arg, Complex.arg_eq_neg_pi_div_two_iff, response1_re, response1_im, hang,
    Real.cos_pi_sub, Real.sin_pi_sub, Real.cos_pi_div_three, Real.sin_pi_div_three]
  constructor
  · norm_num
  · nlinarith

theorem tan_phase_lpf2_at_third :
    Real.tan (atan2 (response1 0.5 2 (Real.pi / 3)).im (response1 0.5 2 (Real.pi / 3)).re)
      = -(Real.sqrt 3 / 2) := by
  rw [atan2_eq_arg, Complex.tan_arg, response1_re, response1_im, Real.cos_pi_div_three,
    Real.sin_pi_div_three]
  norm_num

/-- C13: the order-1 filter `a0 = 0.5`, `alpha1 = 2` is not linear phase: no real constants
`c`, `b` satisfy `atan2(Im H, Re H) = c*theta + b` for every `theta` in `[0, π)`, where
`H = a0*(1 + alpha1*Z(-1, theta))`. -/
theorem C13_lpf2_not_linear_phase :
    ¬ ∃ c b : ℝ, ∀ theta : ℝ, 0 ≤ theta → theta < Real.pi →
      atan2 (response1 0.5 2 theta).im (response1 0.5 2 theta).re = c * theta + b := by
  rintro ⟨c, b, h⟩
  have hpi := Real.pi_pos
  have e0 := h 0 le_rfl hpi
  have e1 := h (Real.pi / 3) (by linarith) (by linarith)
  have e2 := h (2 * Real.pi / 3) (by linarith) (by linarith)
  rw [phase_lpf2_at_zero] at e0
  rw [phase_lpf2_at_two_thirds] at e2
  have hb : b = 0 := by linarith
  have hval : c * (Real.pi / 3) + b = -(Real.pi / 4) := by
    rw [hb] at e2 ⊢
    linarith
  have ht := tan_phase_lpf2_at_third
  rw [e1, hval, Real.tan_neg, Real.tan_pi_div_four] at ht
  have hsq : Real.sqrt 3 ^ 2 = 3 := Real.sq_sqrt (by norm_num)
  have h2 : Real.sqrt 3 = 2 := by linarith
  rw [h2] at hsq
  norm_num at hsq

/-! ## The notch report never shows a zero amplitude -/

theorem amplitudes2_getElem? (a0 alpha1 alpha2 : ℝ) (i : ℕ) (h : i < 100) :
    ((ReportOrder2Filter a0 alpha1 alpha2).rows.map Row.amplitude)[i]?
      = some (Complex.abs (response2 a0 alpha1 alpha2 (angleAt i))) := by
  rw [List.getElem?_map, rows2_getElem? a0 alpha1 alpha2 i h]
  rfl

theorem angleAt_eq (i : ℕ) : angleAt i = (i : ℝ) / 99 * c_pi := by
  unfold angleAt
  rw [percentAt_eq]

/-- The cosine of the angle of every row is nonzero: positive up to row `49`, negative from
row `50` on. -/
theorem cos_angleAt_ne_zero (i : ℕ) (h : i < 100) : Real.cos (angleAt i) ≠ 0 := by
  have hgt := c_pi_gt_pi
  have hlt := c_pi_sub_pi_lt
  have hpi := Real.pi_gt_three
  have hsmall : c_pi - Real.pi < 1 / 100 := hlt.trans (by norm_num)
  have hi0 : (0 : ℝ) ≤ (i : ℝ) := Nat.cast_nonneg i
  rw [angleAt_eq]
  by_cases hle : i ≤ 49
  · have hi : (i : ℝ) ≤ 49 := by exact_mod_cast hle
    apply ne_of_gt
    apply Real.cos_pos_of_mem_Ioo
    constructor
    · have : 0 ≤ (i : ℝ) / 99 * c_pi :=
        mul_nonneg (div_nonneg hi0 (by norm_num)) (by linarith)
      linarith
    · nlinarith
  · have hi : (50 : ℝ) ≤ (i : ℝ) := by exact_mod_cast (not_le.mp hle)
    have hi2 : (i : ℝ) ≤ 99 := by exact_mod_cast (Nat.lt_succ_iff.mp h)
    apply ne_of_lt
    apply Real.cos_neg_of_pi_div_two_lt_of_lt
    · nlinarith
    · nlinarith

/-- C14: no row of the response curve lies at half-Nyquist (`i/99 ≠ 0.5` for every index
`i = 0..99`), and each of the `100` amplitudes of the report of the notch filter `(0.5, 0, 1)`
is strictly positive. -/
theorem C14_notch_never_sampled :
    (∀ i : Fin 100, percentAt i ≠ 0.5) ∧
      ((ReportOrder2Filter 0.5 0 1).rows.map Row.amplitude).length = 100 ∧
      (∀ i : Fin 100, ∃ A : ℝ,
        ((ReportOrder2Filter 0.5 0 1).rows.map Row.amplitude)[(i : ℕ)]? = some A ∧ 0 < A) := by
  refine ⟨?_, by simp [ReportOrder2Filter, c_numFrequencies], ?_⟩
  · intro i hi
    rw [percentAt_eq] at hi
    have h2 : ((2 * (i : ℕ) : ℕ) : ℝ) = ((99 : ℕ) : ℝ) := by
      push_cast
      linarith
    have h3 : 2 * (i : ℕ) = 99 := by exact_mod_cast h2
    omega
  · intro i
    refine ⟨_, amplitudes2_getElem? 0.5 0 1 i i.isLt, ?_⟩
    rw [abs_response2_notch]
    exact abs_pos.mpr (cos_angleAt_ne_zero i i.isLt)

/-! ## The response at the exact angles `percent * π`

The rows are computed at the angles `percent * c_pi`, where `c_pi` is the single-precision
number nearest to `π`. The statements of this section are about the response at the angles
`percent * π` themselves. -/

end DSPFIR
